import Mathlib

/-!
Shallow embedding of the core of `mal-id-cache` (scheduling, adaptive
range, cache-and-dedup engine, unapproved view), translated from
`src/mal_id_cache/jobs.py`, `scheduler.py`, `cache.py` and
`unapproved.py`.  Machine integers are modelled as `Int`; the wall clock
is an explicit `Int` parameter; file and network I/O are modelled as
explicit values (`Option` for a file that may be missing or corrupt, a
pair of ID lists for the remote relation-index page).
-/

namespace MalIdCache

/-! ## jobs.py: RequestType and Job -/

/-- The `RequestType` IntEnum from `jobs.py`. -/
inductive RequestType where
  | NOT_SET
  | ANIME
  | MANGA
  | CHARACTER
  | PERSON
deriving DecidableEq, Repr

/-- A `Job` as constructed in `jobs.py` (the log-only `uuid` field is
omitted: it is drawn fresh from a RNG and used only for log
correlation, never for equality or persistence). -/
structure Job where
  request_type : RequestType
  pages : Int
deriving DecidableEq, Repr

/-- `Job.__init__` from `jobs.py`: anime/manga keep the supplied page
count, character/person silently replace it with `-1` ("character and
person requests can only accept all pages"), and any other request type
raises a `RuntimeError`. -/
def jobInit (request_type : RequestType) (pages : Int) : Except String Job :=
  if request_type = RequestType.ANIME ∨ request_type = RequestType.MANGA then
    Except.ok ⟨request_type, pages⟩
  else if request_type = RequestType.CHARACTER ∨ request_type = RequestType.PERSON then
    Except.ok ⟨request_type, -1⟩
  else
    Except.error "Request Type is not supported."

/-! ## jobs.py: UpdatableRange -/

/-- The mutable state of an `UpdatableRange` from `jobs.py`. -/
structure UpdatableRange where
  current_page : Int
  check_till : Int
  extend_by : Int
  infinite : Bool
  is_toggleable : Bool
  is_toggled : Bool
deriving DecidableEq, Repr

/-- `UpdatableRange.__init__`: `current_page` starts at 0, `infinite`
is set when `check_till == -1`, `is_toggleable` when `check_till == -2`,
and `_is_toggled` starts `True`. -/
def mkRange (check_till : Int) (extend_by : Int) : UpdatableRange :=
  { current_page := 0
    check_till := check_till
    extend_by := extend_by
    infinite := check_till = -1
    is_toggleable := check_till = -2
    is_toggled := true }

/-- `UpdatableRange.found_entry_on_page`: when the range is not
infinite, widen `check_till` to `n + extend_by` if that exceeds the
current ceiling. -/
def UpdatableRange.found_entry_on_page (r : UpdatableRange) (n : Int) : UpdatableRange :=
  if r.infinite then r
  else if n + r.extend_by > r.check_till then { r with check_till := n + r.extend_by }
  else r

/-- `UpdatableRange.toggle_off`: clear the `_is_toggled` flag. -/
def UpdatableRange.toggle_off (r : UpdatableRange) : UpdatableRange :=
  { r with is_toggled := false }

/-- `UpdatableRange.__next__`: produce the next page number, or `none`
for `StopIteration`. -/
def UpdatableRange.next (r : UpdatableRange) : Option (Int × UpdatableRange) :=
  if r.infinite ∨ (r.is_toggleable ∧ r.is_toggled) ∨ r.current_page < r.check_till then
    some (r.current_page + 1, { r with current_page := r.current_page + 1 })
  else
    none

/-- One externally visible operation on an `UpdatableRange`. -/
inductive RangeOp where
  | step
  | onEntryFound (n : Int)
  | toggleOff
deriving DecidableEq, Repr

/-- Apply one operation to a range (an exhausted `next` leaves the
state untouched, matching `StopIteration` in the source). -/
def applyOp (r : UpdatableRange) : RangeOp → UpdatableRange
  | RangeOp.step =>
      match r.next with
      | some p => p.2
      | none => r
  | RangeOp.onEntryFound n => r.found_entry_on_page n
  | RangeOp.toggleOff => r.toggle_off

/-- Apply a whole interleaved sequence of operations. -/
def applyOps (r : UpdatableRange) (ops : List RangeOp) : UpdatableRange :=
  ops.foldl applyOp r

/-! ## scheduler.py -/

/-- One value of the scheduler state dictionary:
`{"every_x_seconds": ..., "prev": ...}`. -/
structure SchedEntry where
  every_x_seconds : Int
  prev : Int
deriving DecidableEq, Repr

/-- The scheduler's `self.state`: a `pages ↦ SchedEntry` dictionary,
kept as a list of pairs in insertion order (Python dicts preserve
insertion order, which matters for `prepare_request`'s scan). -/
abbrev SchedState := List (Int × SchedEntry)

/-- Association lookup for the parsed contents of `*_state.json`,
mapping a page budget to its persisted `prev` timestamp. -/
def lookupPrev : List (Int × Int) → Int → Option Int
  | [], _ => none
  | (k, v) :: rest, p => if k = p then some v else lookupPrev rest p

/-- `AbstractScheduler.read_state` from `scheduler.py`: for each
configured `(pages, period)` pair, reuse the persisted `prev` when the
key is present in the file contents, else initialize `prev` to the unix
epoch (0).  A missing or unparseable file is the empty contents list. -/
def read_state (ranges : List (Int × Int)) (contents : List (Int × Int)) : SchedState :=
  ranges.map (fun pp =>
    match lookupPrev contents pp.1 with
    | some prev => (pp.1, { every_x_seconds := pp.2, prev := prev })
    | none => (pp.1, { every_x_seconds := pp.2, prev := 0 }))

/-- The due test used by both scheduler variants:
`time.time() - metadata["prev"] > metadata["every_x_seconds"]`. -/
def isDue (e : SchedEntry) (now : Int) : Bool :=
  now - e.prev > e.every_x_seconds

/-- The scan loop of `JustAddedScheduler.prepare_request`: fold over the
state in order, carrying `max_pages` (initially 0); a due negative
budget is taken and the scan stops (`break`); a due budget larger than
the accumulator replaces it. -/
def selectBudget : SchedState → Int → Int → Int
  | [], _, max_pages => max_pages
  | (pages, metadata) :: rest, now, max_pages =>
      if isDue metadata now then
        if pages < 0 then pages
        else if pages > max_pages then selectBudget rest now pages
        else selectBudget rest now max_pages
      else selectBudget rest now max_pages

/-- `JustAddedScheduler.prepare_request`: `None` when the scan ends at
0, else a `Job` for the selected budget. -/
def prepare_request (state : SchedState) (now : Int) (request_type : RequestType) :
    Option Job :=
  let max_pages := selectBudget state now 0
  if max_pages = 0 then none else some ⟨request_type, max_pages⟩

/-- `JustAddedScheduler.finished_requesting`: stamp `prev := now` for
every budget when the range was infinite; otherwise stamp exactly the
budgets with `r.current_page >= pages != -1` (a Python chained
comparison: `current_page ≥ pages` and `pages ≠ -1`). -/
def finished_requesting : SchedState → UpdatableRange → Int → SchedState
  | [], _, _ => []
  | (pages, metadata) :: rest, r, now =>
      (if r.infinite then (pages, { metadata with prev := now })
       else if r.current_page ≥ pages ∧ pages ≠ -1 then
         (pages, { metadata with prev := now })
       else (pages, metadata)) :: finished_requesting rest r now

/-! ## cache.py -/

/-- A recent-feed (`JustAddedCache`) cache: the `"sfw"` and `"nsfw"` ID
sets. -/
structure JustAddedCache where
  sfw : Finset Int
  nsfw : Finset Int
deriving DecidableEq

/-- `JustAddedCache.__contains__`: membership in either classification. -/
def JustAddedCache.contains (c : JustAddedCache) (item : Int) : Bool :=
  item ∈ c.sfw ∨ item ∈ c.nsfw

/-- `JustAddedCache.add`: returns `False` and leaves the cache alone if
the ID is already present in either set, else inserts it into the set
selected by `nsfw` and returns `True`. -/
def JustAddedCache.add (c : JustAddedCache) (item : Int) (nsfw : Bool) :
    Bool × JustAddedCache :=
  if c.contains item then (false, c)
  else if nsfw then (true, { c with nsfw := insert item c.nsfw })
  else (true, { c with sfw := insert item c.sfw })

/-- A Python value that can sit in the `AllPagesCache` membership test:
either the builtin type object `int` itself, or an actual integer.
`AllPagesCache.__contains__` in the source reads
`return int in self.cache["ids"]`, i.e. it asks whether the *type
object* `int` is a member of the ID set, never consulting `item`. -/
inductive PyVal where
  | intType
  | intVal (n : Int)
deriving DecidableEq, Repr

/-- A full-enumeration (`AllPagesCache`) cache: the single `"ids"` set. -/
structure AllPagesCache where
  ids : Finset PyVal
deriving DecidableEq

/-- `AllPagesCache.__contains__` as written in the source:
`int in self.cache["ids"]` — membership of the type object `int`. -/
def AllPagesCache.contains (c : AllPagesCache) (_item : Int) : Bool :=
  PyVal.intType ∈ c.ids

/-- `AllPagesCache.add`: returns `False` if `item in self` (via the
`__contains__` above), else inserts `int(item)` and returns `True`. -/
def AllPagesCache.add (c : AllPagesCache) (item : Int) : Bool × AllPagesCache :=
  if c.contains item then (false, c)
  else (true, { c with ids := insert (PyVal.intVal item) c.ids })

/-- `JustAddedCache._set_default_cache`: `{"sfw": set(), "nsfw": set()}`. -/
def justAddedDefault : JustAddedCache := ⟨∅, ∅⟩

/-- `AllPagesCache._set_default_cache`: `{"ids": set()}`. -/
def allPagesDefault : AllPagesCache := ⟨∅⟩

/-- `AbstractCache.read` for the recent-feed variant: parse the file
into sets when it is present and well-formed, else fall back to
`_set_default_cache` (missing file and JSON decode error are the `none`
case). -/
def JustAddedCache.readFile : Option (List Int × List Int) → JustAddedCache
  | some (s, n) => ⟨s.toFinset, n.toFinset⟩
  | none => justAddedDefault

/-- `AbstractCache.read` for the full-enumeration variant: parse the
file into the `"ids"` set when present and well-formed, else fall back
to `_set_default_cache`. -/
def AllPagesCache.readFile : Option (List Int) → AllPagesCache
  | some l => ⟨(l.map PyVal.intVal).toFinset⟩
  | none => allPagesDefault

/-- `AbstractCache.dump`, generically over the in-memory cache (a map
from classification label to ID set): each set is serialized as
`sorted(...)`, an ascending list. -/
def dumpCache (cache : List (String × Finset Int)) : List (String × List Int) :=
  cache.map (fun kv => (kv.1, kv.2.sort (· ≤ ·)))

/-- The set-reconstruction step of `AbstractCache.read`:
`{k: set(self.cache[k]) for k in self.cache}`. -/
def readCache (file : List (String × List Int)) : List (String × Finset Int) :=
  file.map (fun kv => (kv.1, kv.2.toFinset))

/-! ## unapproved.py -/

/-- The mutable fields of the `Unapproved` view.  `html` stands for
`_html_response`/`_html_text` and carries, when a page has been fetched,
the content of its two tables (anime IDs, manga IDs). -/
structure UnapprovedState where
  html : Option (List Int × List Int)
  anime_ids : Option (List Int)
  manga_ids : Option (List Int)
  requested_at : Option Int
deriving DecidableEq

/-- `Unapproved.__init__`: response, parsed lists and timestamp all
start as `None`. -/
def unapprovedInit : UnapprovedState := ⟨none, none, none, none⟩

/-- `Unapproved.is_parsed`: both parsed lists are not `None`. -/
def UnapprovedState.is_parsed (u : UnapprovedState) : Bool :=
  u.anime_ids.isSome && u.manga_ids.isSome

/-- `Unapproved._parse` (with `_request` inlined): fetch the remote
relation-index page when no response is cached, then fill the parsed
lists from the page's two tables when not yet parsed.  The second
component counts the remote fetches performed. -/
def unapprovedParse (u : UnapprovedState) (remote : List Int × List Int) :
    UnapprovedState × Nat :=
  let fetched := if u.html.isNone then ({ u with html := some remote }, 1) else (u, 0)
  let u1 := fetched.1
  if u1.is_parsed then fetched
  else
    match u1.html with
    | some (a, m) => ({ u1 with anime_ids := some a, manga_ids := some m }, fetched.2)
    | none => fetched

/-- `Unapproved.anime`: parse if needed, stamp `_requested_at := now`,
and return `sorted(set(self._anime) - approved_entries)` where the
approved entries are the union of the anime cache's sfw and nsfw sets.
Returns the result list, the new state, and the number of remote
fetches performed by this call. -/
def animeCall (u : UnapprovedState) (remote : List Int × List Int)
    (anime_cache : JustAddedCache) (now : Int) :
    List Int × UnapprovedState × Nat :=
  let parsed := if u.is_parsed then (u, 0) else unapprovedParse u remote
  let approved := anime_cache.sfw ∪ anime_cache.nsfw
  let u2 := { parsed.1 with requested_at := some now }
  (((parsed.1.anime_ids.getD []).toFinset \ approved).sort (· ≤ ·), u2, parsed.2)

/-- `Unapproved.manga`: same shape as `anime`, over the manga table and
the manga cache. -/
def mangaCall (u : UnapprovedState) (remote : List Int × List Int)
    (manga_cache : JustAddedCache) (now : Int) :
    List Int × UnapprovedState × Nat :=
  let parsed := if u.is_parsed then (u, 0) else unapprovedParse u remote
  let approved := manga_cache.sfw ∪ manga_cache.nsfw
  let u2 := { parsed.1 with requested_at := some now }
  (((parsed.1.manga_ids.getD []).toFinset \ approved).sort (· ≤ ·), u2, parsed.2)

/-- `Unapproved.decay_data` exactly as written in the source: the
response fields go back to `None`, but `_anime` and `_manga` are set to
`[]` (empty lists, not `None`), and `_requested_at` to `None`. -/
def decay_data (_u : UnapprovedState) : UnapprovedState :=
  { html := none, anime_ids := some [], manga_ids := some [], requested_at := none }

/-! ## Helper lemmas -/

/-- `Finset.sort` is the unique ≤-sorted duplicate-free enumeration: any
sorted `Nodup` list with the right `toFinset` is the sort.  Used to
evaluate `sorted(...)` on concrete sets. -/
theorem sortEq (s : Finset Int) (l : List Int) (hs : l.Sorted (· ≤ ·)) (hn : l.Nodup)
    (h : l.toFinset = s) : s.sort (· ≤ ·) = l := by
  refine List.eq_of_perm_of_sorted ?_ (Finset.sort_sorted _ _) hs
  refine List.perm_of_nodup_nodup_toFinset_eq (Finset.sort_nodup _ _) hn ?_
  rw [Finset.sort_toFinset, h]

/-- No single operation lowers `check_till`. -/
theorem applyOp_check_till (r : UpdatableRange) (op : RangeOp) :
    r.check_till ≤ (applyOp r op).check_till := by
  cases op with
  | step =>
      simp only [applyOp]
      cases hn : r.next with
      | none => exact le_refl _
      | some p =>
          simp only [UpdatableRange.next] at hn
          split at hn
          · cases hn
            exact le_refl _
          · simp at hn
  | onEntryFound n =>
      simp only [applyOp, UpdatableRange.found_entry_on_page]
      split
      · exact le_refl _
      · split
        · simp only []
          omega
        · exact le_refl _
  | toggleOff => exact le_refl _

/-- No sequence of operations lowers `check_till`. -/
theorem applyOps_check_till (ops : List RangeOp) :
    ∀ r : UpdatableRange, r.check_till ≤ (applyOps r ops).check_till := by
  induction ops with
  | nil => intro r; exact le_refl _
  | cons op rest ih =>
      intro r
      exact le_trans (applyOp_check_till r op) (ih (applyOp r op))

/-! ## C1 -/

/-- Claim C1 (code bug evaluation): a fresh `Unapproved` view fetches
the relation-index page exactly once on the first `anime()` call, but
after `decay_data` has run, `_anime`/`_manga` are `[]` rather than
`None`, so `is_parsed` is still true and the next `anime()`/`manga()`
call performs zero remote fetches and returns the empty list — stale
empty data instead of the refetch the claim (and `decay_data`'s own
docstring) promises. -/
theorem unapproved_decay_serves_empty_without_refetch :
    (animeCall unapprovedInit ([5, 7], [9]) justAddedDefault 0).2.2 = 1 ∧
    ∀ (u : UnapprovedState) (remote : List Int × List Int)
      (cache : JustAddedCache) (now : Int),
      (animeCall (decay_data u) remote cache now).2.2 = 0 ∧
      (animeCall (decay_data u) remote cache now).1 = [] ∧
      (mangaCall (decay_data u) remote cache now).2.2 = 0 ∧
      (mangaCall (decay_data u) remote cache now).1 = [] := by
  refine ⟨rfl, ?_⟩
  intro u remote cache now
  refine ⟨rfl, ?_, rfl, ?_⟩ <;>
    simp [animeCall, mangaCall, decay_data, UnapprovedState.is_parsed,
      Finset.empty_sdiff, Finset.sort_empty]

/-! ## C2 -/

/-- Claim C2 (code bug evaluation): on the full-enumeration cache,
`add(5)` from the empty default returns `True` and inserts 5, yet
`__contains__` still reports `false` (it tests the type object `int`,
never the item), so a second `add(5)` returns `True` again instead of
the `False` the claim (and `add`'s docstring) requires. -/
theorem all_pages_add_repeat_returns_true :
    (allPagesDefault.add 5).1 = true ∧
    PyVal.intVal 5 ∈ ((allPagesDefault.add 5).2).ids ∧
    ((allPagesDefault.add 5).2).contains 5 = false ∧
    ((allPagesDefault.add 5).2.add 5).1 = true := by
  decide

/-! ## C3 -/

/-- Claim C3 counterexample: constructing a `Job` for the enumeration
kind `CHARACTER` with page budget 5 does not fail — it succeeds with
the budget silently coerced to -1. -/
theorem job_enumeration_budget_not_rejected :
    jobInit RequestType.CHARACTER 5 = Except.ok ⟨RequestType.CHARACTER, -1⟩ := by
  rfl

/-- Claim C3 (amended): constructing a `Job` whose kind is an
enumeration kind (character or person) succeeds for every supplied page
budget, silently coercing the budget to -1; construction fails only for
the unsupported `NOT_SET` kind. -/
theorem job_enumeration_budget_coerced (pages : Int) :
    jobInit RequestType.CHARACTER pages = Except.ok ⟨RequestType.CHARACTER, -1⟩ ∧
    jobInit RequestType.PERSON pages = Except.ok ⟨RequestType.PERSON, -1⟩ ∧
    jobInit RequestType.NOT_SET pages = Except.error "Request Type is not supported." := by
  exact ⟨rfl, rfl, rfl⟩

/-! ## C4 -/

/-- Claim C4 counterexample: a toggleable range (`check_till = -2`)
that saw `found_entry_on_page 1` (raising `check_till` to 9) and was
then toggled off still produces page 1 from `next()` instead of
reporting exhaustion. -/
theorem toggle_off_after_extension_not_exhausted :
    (mkRange (-2) 8).is_toggleable = true ∧
    (((mkRange (-2) 8).found_entry_on_page 1).toggle_off).next ≠ none := by
  decide

/-- Claim C4 (amended): for a toggleable (non-infinite) range, after
`toggle_off()` the next `next()` call reports exhaustion if and only if
`current_page` has reached `check_till`; in particular a toggleable
range whose ceiling was never extended (`check_till` still -2) is
exhausted regardless of `current_page ≥ 0`. -/
theorem toggle_off_exhaustion_iff (r : UpdatableRange)
    (_ht : r.is_toggleable = true) (hi : r.infinite = false) :
    r.toggle_off.next = none ↔ r.check_till ≤ r.current_page := by
  simp [UpdatableRange.next, UpdatableRange.toggle_off, hi]

/-- Witness for the amended C4 theorem at the freshly constructed
toggleable range. -/
theorem toggle_off_exhaustion_iff_witness :
    (mkRange (-2) 8).is_toggleable = true ∧ (mkRange (-2) 8).infinite = false ∧
    (mkRange (-2) 8).toggle_off.next = none :=
  ⟨by decide, by decide,
    (toggle_off_exhaustion_iff (mkRange (-2) 8) (by decide) (by decide)).2 (by decide)⟩

/-! ## C7 -/

/-- Claim C7: `check_till` is monotonically non-decreasing across every
interleaved sequence of `next`/`found_entry_on_page`/`toggle_off`
operations; on a non-infinite range `found_entry_on_page n` sets
`check_till` to `n + extend_by` exactly when that candidate exceeds the
current value and leaves the range untouched otherwise; and concretely,
from `check_till = 5, extend_by = 8`, `found_entry_on_page 4` gives 12
and a subsequent `found_entry_on_page 2` leaves 12. -/
theorem check_till_monotone :
    (∀ (r : UpdatableRange) (ops : List RangeOp),
        r.check_till ≤ (applyOps r ops).check_till) ∧
    (∀ (r : UpdatableRange) (n : Int), r.infinite = false →
        (r.check_till < n + r.extend_by →
          (r.found_entry_on_page n).check_till = n + r.extend_by) ∧
        (n + r.extend_by ≤ r.check_till → r.found_entry_on_page n = r)) ∧
    ((mkRange 5 8).found_entry_on_page 4).check_till = 12 ∧
    (((mkRange 5 8).found_entry_on_page 4).found_entry_on_page 2).check_till = 12 := by
  refine ⟨fun r ops => applyOps_check_till ops r, ?_, by decide, by decide⟩
  intro r n hi
  constructor
  · intro hlt
    simp [UpdatableRange.found_entry_on_page, hi, hlt]
  · intro hle
    simp [UpdatableRange.found_entry_on_page, hi]
    omega

/-- Witness for C7 discharging the `infinite = false` hypothesis at the
concrete range of the spec's example. -/
theorem check_till_monotone_witness :
    (mkRange 5 8).infinite = false ∧ (mkRange 5 8).check_till < 4 + (mkRange 5 8).extend_by ∧
    ((mkRange 5 8).found_entry_on_page 4).check_till = 4 + (mkRange 5 8).extend_by :=
  ⟨by decide, by decide,
    (check_till_monotone.2.1 (mkRange 5 8) 4 (by decide)).1 (by decide)⟩

/-! ## C8 -/

/-- Claim C8: `dump` followed by `read` reconstructs exactly the same
membership sets for every in-memory cache; every serialized array is
strictly ascending (sorted with unique values); and concretely the
in-memory state `{"safe": {3,1,2}, "adult": {}}` serializes as
`{"safe": [1,2,3], "adult": []}` and reloads to the same sets. -/
theorem cache_round_trip :
    (∀ cache : List (String × Finset Int), readCache (dumpCache cache) = cache) ∧
    (∀ (cache : List (String × Finset Int)) (kv : String × List Int),
        kv ∈ dumpCache cache → kv.2.Sorted (· < ·)) ∧
    dumpCache [("safe", ({3, 1, 2} : Finset Int)), ("adult", ∅)] =
      [("safe", [1, 2, 3]), ("adult", [])] ∧
    readCache [("safe", [1, 2, 3]), ("adult", [])] =
      [("safe", ({3, 1, 2} : Finset Int)), ("adult", ∅)] := by
  refine ⟨?_, ?_, ?_, ?_⟩
  · intro cache
    induction cache with
    | nil => rfl
    | cons kv rest ih =>
        simp only [readCache, dumpCache, List.map_cons] at ih ⊢
        rw [Finset.sort_toFinset, ih]
  · intro cache kv hkv
    simp only [dumpCache, List.mem_map] at hkv
    obtain ⟨ab, _, rfl⟩ := hkv
    exact Finset.sort_sorted_lt _
  · simp only [dumpCache, List.map]
    rw [sortEq _ [1, 2, 3] (by decide) (by decide) (by decide), Finset.sort_empty]
  · simp [readCache]
    decide

/-- Witness for C8 discharging the membership hypothesis of the
sortedness conjunct at the concrete example cache. -/
theorem cache_round_trip_witness :
    ("safe", ([1, 2, 3] : List Int)) ∈
      dumpCache [("safe", ({3, 1, 2} : Finset Int)), ("adult", ∅)] ∧
    List.Sorted (· < ·) ([1, 2, 3] : List Int) := by
  have hmem : ("safe", ([1, 2, 3] : List Int)) ∈
      dumpCache [("safe", ({3, 1, 2} : Finset Int)), ("adult", ∅)] := by
    rw [cache_round_trip.2.2.1]
    exact List.mem_cons_self _ _
  exact ⟨hmem, cache_round_trip.2.1 _ _ hmem⟩

/-! ## C5 -/

/-- `finished_requesting` as the original claim words it: stamp a
budget whenever the range was infinite or `current_page` is at least
that budget (no `-1` exclusion). -/
def finishedRequestingClaim (state : SchedState) (r : UpdatableRange) (now : Int) :
    SchedState :=
  state.map (fun pe =>
    if r.infinite ∨ pe.1 ≤ r.current_page then (pe.1, { pe.2 with prev := now }) else pe)

/-- `finished_requesting` as the amended claim words it: stamp a budget
exactly when the range was infinite, or the budget is not the `-1`
all-pages sentinel and `current_page` is at least that budget. -/
def finishedRequestingSpec (state : SchedState) (r : UpdatableRange) (now : Int) :
    SchedState :=
  state.map (fun pe =>
    if r.infinite ∨ (pe.1 ≠ -1 ∧ pe.1 ≤ r.current_page) then
      (pe.1, { pe.2 with prev := now })
    else pe)

/-- Claim C5 counterexample: a non-infinite range that covered 5 pages
satisfies the claim's stamping condition (`current_page ≥ -1`) for the
configured `-1` all-pages budget, yet the code leaves that budget's
`prev` untouched — the code disagrees with the claim's characterization
at this input. -/
theorem finished_requesting_all_pages_not_stamped :
    (applyOps (mkRange 5 8) (List.replicate 5 RangeOp.step)).infinite = false ∧
    (-1 : Int) ≤ (applyOps (mkRange 5 8) (List.replicate 5 RangeOp.step)).current_page ∧
    finished_requesting [((-1 : Int), ⟨10, 3⟩)]
        (applyOps (mkRange 5 8) (List.replicate 5 RangeOp.step)) 100 ≠
      finishedRequestingClaim [((-1 : Int), ⟨10, 3⟩)]
        (applyOps (mkRange 5 8) (List.replicate 5 RangeOp.step)) 100 := by
  decide

/-- Claim C5 (amended): `finished_requesting` stamps a budget to now
exactly when the range was infinite, or the budget is not `-1` and
`current_page` is ≥ that budget; consequently one crawl widened to
`current_page = 25` against configured budgets `{2, 8, 20}` stamps all
three. -/
theorem finished_requesting_spec_eq :
    (∀ (state : SchedState) (r : UpdatableRange) (now : Int),
        finished_requesting state r now = finishedRequestingSpec state r now) ∧
    finished_requesting [((2 : Int), ⟨10, 3⟩), (8, ⟨10, 3⟩), (20, ⟨10, 3⟩)]
        (applyOps (mkRange 25 8) (List.replicate 25 RangeOp.step)) 100 =
      [((2 : Int), ⟨10, 100⟩), (8, ⟨10, 100⟩), (20, ⟨10, 100⟩)] := by
  refine ⟨?_, by decide⟩
  intro state r now
  induction state with
  | nil => rfl
  | cons pe rest ih =>
      obtain ⟨p, md⟩ := pe
      simp only [finished_requesting, finishedRequestingSpec, List.map_cons] at ih ⊢
      rw [ih]
      congr 1
      by_cases hinf : r.infinite = true
      · rw [if_pos hinf, if_pos (Or.inl hinf)]
      · rw [if_neg hinf]
        by_cases h1 : p ≤ r.current_page ∧ p ≠ -1
        · rw [if_pos h1, if_pos (Or.inr ⟨h1.2, h1.1⟩)]
        · rw [if_neg h1, if_neg ?_]
          rintro (h | h)
          · exact hinf h
          · exact h1 ⟨h.2, h.1⟩

/-! ## C6 and C10: prepare_request -/

/-- The configured budgets currently due, in scan order. -/
def duePages (state : SchedState) (now : Int) : List Int :=
  (state.filter (fun pe => isDue pe.2 now)).map (fun pe => pe.1)

/-- Unfolding `duePages` over a cons cell. -/
theorem duePages_cons (p : Int) (md : SchedEntry) (rest : SchedState) (now : Int) :
    duePages ((p, md) :: rest) now =
      if isDue md now then p :: duePages rest now else duePages rest now := by
  simp only [duePages, List.filter_cons]
  split <;> simp

/-- A left fold of `max` is an upper bound of the seed and every
element, and is the seed or one of the elements. -/
theorem foldl_max_spec (l : List Int) : ∀ acc : Int,
    (l.foldl max acc = acc ∨ l.foldl max acc ∈ l) ∧ acc ≤ l.foldl max acc ∧
    ∀ p ∈ l, p ≤ l.foldl max acc := by
  induction l with
  | nil => intro acc; exact ⟨Or.inl rfl, le_refl _, by simp⟩
  | cons x rest ih =>
      intro acc
      obtain ⟨hmem, hacc, hall⟩ := ih (max acc x)
      rw [List.foldl_cons]
      refine ⟨?_, le_trans (le_max_left acc x) hacc, ?_⟩
      · rcases hmem with h | h
        · rcases max_choice acc x with hm | hm
          · exact Or.inl (h.trans hm)
          · refine Or.inr ?_
            rw [h, hm]
            exact List.mem_cons_self x rest
        · exact Or.inr (List.mem_cons_of_mem _ h)
      · intro p hp
        rcases List.mem_cons.mp hp with rfl | h
        · exact le_trans (le_max_right acc p) hacc
        · exact hall p h

/-- When every due budget is non-negative, the `prepare_request` scan
computes a left fold of `max` over the due budgets. -/
theorem selectBudget_eq_foldl (now : Int) (state : SchedState) :
    (∀ p ∈ duePages state now, 0 ≤ p) → ∀ acc : Int, 0 ≤ acc →
      selectBudget state now acc = (duePages state now).foldl max acc := by
  induction state with
  | nil => intro _ acc _; rfl
  | cons pe rest ih =>
      obtain ⟨p, md⟩ := pe
      intro hpos acc hacc
      rw [duePages_cons] at hpos ⊢
      by_cases hdue : isDue md now = true
      · rw [if_pos hdue] at hpos ⊢
        have hp : 0 ≤ p := hpos p (List.mem_cons_self _ _)
        have hrest : ∀ q ∈ duePages rest now, 0 ≤ q := fun q hq =>
          hpos q (List.mem_cons_of_mem _ hq)
        rw [List.foldl_cons]
        simp only [selectBudget, hdue, if_true]
        rw [if_neg (not_lt.mpr hp)]
        by_cases hgt : p > acc
        · rw [if_pos hgt, ih hrest p hp]
          congr 1
          omega
        · rw [if_neg hgt, ih hrest acc hacc]
          congr 1
          omega
      · rw [if_neg hdue] at hpos ⊢
        simp only [selectBudget, hdue, if_false]
        exact ih hpos acc hacc

/-- When some due budget is negative, the scan returns a negative due
budget (the `break` on the first negative sentinel encountered). -/
theorem selectBudget_neg (now : Int) (state : SchedState) :
    (∃ p ∈ duePages state now, p < 0) → ∀ acc : Int, 0 ≤ acc →
      selectBudget state now acc < 0 ∧ selectBudget state now acc ∈ duePages state now := by
  induction state with
  | nil => simp [duePages, selectBudget]
  | cons pe rest ih =>
      obtain ⟨p, md⟩ := pe
      intro hex acc hacc
      rw [duePages_cons] at hex ⊢
      by_cases hdue : isDue md now = true
      · rw [if_pos hdue] at hex ⊢
        by_cases hneg : p < 0
        · simp only [selectBudget, hdue, if_true, if_pos hneg]
          exact ⟨hneg, List.mem_cons_self _ _⟩
        · have hex' : ∃ q ∈ duePages rest now, q < 0 := by
            rcases hex with ⟨q, hq, hqneg⟩
            rcases List.mem_cons.mp hq with rfl | h
            · exact absurd hqneg hneg
            · exact ⟨q, h, hqneg⟩
          simp only [selectBudget, hdue, if_true, if_neg hneg]
          by_cases hgt : p > acc
          · rw [if_pos hgt]
            have h := ih hex' p (le_of_not_lt hneg)
            exact ⟨h.1, List.mem_cons_of_mem _ h.2⟩
          · rw [if_neg hgt]
            have h := ih hex' acc hacc
            exact ⟨h.1, List.mem_cons_of_mem _ h.2⟩
      · rw [if_neg hdue] at hex ⊢
        simp only [selectBudget, hdue, if_false]
        exact ih hex acc hacc

/-- Claim C6: `prepare_request` returns `None` when no budget is due;
a due negative (all-pages) budget wins outright — the result is a `Job`
carrying a negative due budget; and when every due budget is
non-negative and at least one is positive, the result is a `Job`
carrying the strictly largest due (positive) budget. -/
theorem prepare_request_selects_max_due (state : SchedState) (now : Int)
    (rt : RequestType) :
    (duePages state now = [] → prepare_request state now rt = none) ∧
    ((∃ p ∈ duePages state now, p < 0) →
      ∃ q, prepare_request state now rt = some ⟨rt, q⟩ ∧ q < 0 ∧
        q ∈ duePages state now) ∧
    ((∀ p ∈ duePages state now, 0 ≤ p) → (∃ p ∈ duePages state now, 0 < p) →
      ∃ m, prepare_request state now rt = some ⟨rt, m⟩ ∧ 0 < m ∧
        m ∈ duePages state now ∧ ∀ p ∈ duePages state now, p ≤ m) := by
  refine ⟨?_, ?_, ?_⟩
  · intro hempty
    have h := selectBudget_eq_foldl now state (by simp [hempty]) 0 (le_refl 0)
    rw [hempty] at h
    simp [prepare_request, h]
  · intro hex
    have h := selectBudget_neg now state hex 0 (le_refl 0)
    refine ⟨selectBudget state now 0, ?_, h.1, h.2⟩
    simp only [prepare_request]
    rw [if_neg (by omega)]
  · intro hpos hex
    have h := selectBudget_eq_foldl now state hpos 0 (le_refl 0)
    obtain ⟨hmem, _, hall⟩ := foldl_max_spec (duePages state now) 0
    obtain ⟨p, hp, hppos⟩ := hex
    have hm : 0 < (duePages state now).foldl max 0 := lt_of_lt_of_le hppos (hall p hp)
    refine ⟨(duePages state now).foldl max 0, ?_, hm, ?_, hall⟩
    · simp only [prepare_request, h]
      rw [if_neg (by omega)]
    · rcases hmem with h0 | h0
      · omega
      · exact h0

/-- Witness for C6: the three cases of the theorem discharged at
concrete scheduler states — nothing due; a due `-1` sentinel among due
positives; and due budgets `{8, 20}` with `2` not due selecting 20. -/
theorem prepare_request_selects_max_due_witness :
    prepare_request [((2 : Int), ⟨1000, 90⟩)] 100 RequestType.ANIME = none ∧
    (∃ q, prepare_request [((8 : Int), ⟨10, 0⟩), (-1, ⟨10, 0⟩), (20, ⟨10, 0⟩)] 100
        RequestType.MANGA = some ⟨RequestType.MANGA, q⟩ ∧ q < 0 ∧
      q ∈ duePages [((8 : Int), ⟨10, 0⟩), (-1, ⟨10, 0⟩), (20, ⟨10, 0⟩)] 100) ∧
    ∃ m, prepare_request [((2 : Int), ⟨1000, 90⟩), (8, ⟨10, 0⟩), (20, ⟨10, 0⟩)] 100
        RequestType.ANIME = some ⟨RequestType.ANIME, m⟩ ∧ 0 < m ∧
      m ∈ duePages [((2 : Int), ⟨1000, 90⟩), (8, ⟨10, 0⟩), (20, ⟨10, 0⟩)] 100 ∧
      ∀ p ∈ duePages [((2 : Int), ⟨1000, 90⟩), (8, ⟨10, 0⟩), (20, ⟨10, 0⟩)] 100, p ≤ m :=
  ⟨(prepare_request_selects_max_due _ 100 RequestType.ANIME).1 (by decide),
    (prepare_request_selects_max_due _ 100 RequestType.MANGA).2.1 (by decide),
    (prepare_request_selects_max_due _ 100 RequestType.ANIME).2.2 (by decide) (by decide)⟩

/-- The scan never leaves 0 for 0 when every due budget is 0. -/
theorem selectBudget_zero (now : Int) (state : SchedState) :
    (∀ pe ∈ state, isDue pe.2 now = true → pe.1 = 0) →
    selectBudget state now 0 = 0 := by
  induction state with
  | nil => intro _; rfl
  | cons pe rest ih =>
      obtain ⟨p, md⟩ := pe
      intro hall
      by_cases hdue : isDue md now = true
      · have hp : p = 0 := hall (p, md) (List.mem_cons_self _ _) hdue
        subst hp
        simp only [selectBudget, hdue, if_true]
        split_ifs <;>
          first
          | rfl
          | exact ih fun pe h => hall pe (List.mem_cons_of_mem _ h)
      · simp only [selectBudget, hdue, if_false]
        exact ih fun pe h => hall pe (List.mem_cons_of_mem _ h)

/-- Claim C10: a configured budget of 0 can never be the budget of an
issued `Job` (the scan's accumulator starts at 0 and only strictly
larger positive budgets or a negative sentinel replace it), and when
every due budget is 0 `prepare_request` returns `None`, exactly as if
nothing were due. -/
theorem zero_budget_never_issues_job (state : SchedState) (now : Int)
    (rt : RequestType) :
    (∀ j : Job, prepare_request state now rt = some j → j.pages ≠ 0) ∧
    ((∀ pe ∈ state, isDue pe.2 now = true → pe.1 = 0) →
      prepare_request state now rt = none) := by
  constructor
  · intro j hj
    simp only [prepare_request] at hj
    by_cases h : selectBudget state now 0 = 0
    · rw [if_pos h] at hj
      exact absurd hj (by simp)
    · rw [if_neg h] at hj
      have : j = ⟨rt, selectBudget state now 0⟩ := by
        injection hj with h'
        exact h'.symm
      rw [this]
      exact h
  · intro hall
    simp [prepare_request, selectBudget_zero now state hall]

/-- Witness for C10: applying the theorem at a state with one due
budget 8 (the issued job's budget is nonzero) and a state whose only
due budget is 0 (nothing is issued). -/
theorem zero_budget_never_issues_job_witness :
    (⟨RequestType.ANIME, 8⟩ : Job).pages ≠ 0 ∧
    prepare_request [((0 : Int), ⟨10, 0⟩)] 100 RequestType.ANIME = none :=
  ⟨(zero_budget_never_issues_job [((8 : Int), ⟨10, 0⟩)] 100 RequestType.ANIME).1
      ⟨RequestType.ANIME, 8⟩ (by decide),
    (zero_budget_never_issues_job [((0 : Int), ⟨10, 0⟩)] 100 RequestType.ANIME).2
      (by decide)⟩

/-! ## C9 -/

/-- Every configured budget missing from the persisted contents is
initialized with `prev = 0`. -/
theorem read_state_missing_key (ranges : List (Int × Int)) (contents : List (Int × Int))
    (p period : Int) (hmem : (p, period) ∈ ranges)
    (hmiss : lookupPrev contents p = none) :
    (p, ⟨period, 0⟩) ∈ read_state ranges contents := by
  have h := List.mem_map_of_mem (fun pp : Int × Int =>
    match lookupPrev contents pp.1 with
    | some prev => (pp.1, ({ every_x_seconds := pp.2, prev := prev } : SchedEntry))
    | none => (pp.1, { every_x_seconds := pp.2, prev := 0 })) hmem
  simp only [hmiss] at h
  exact h

/-- Claim C9: reading a missing or unparseable persisted file is never
fatal — both cache variants fall back to their documented empty default;
every configured budget missing from the state file (in particular all
of them, when the whole file is missing or corrupt) is initialized with
`prev = 0` (epoch); and an epoch-zero entry is due at every clock value
past its period, so the first run always crawls. -/
theorem missing_file_defaults :
    JustAddedCache.readFile none = justAddedDefault ∧
    AllPagesCache.readFile none = allPagesDefault ∧
    (∀ (ranges contents : List (Int × Int)) (p period : Int),
        (p, period) ∈ ranges → lookupPrev contents p = none →
        (p, ⟨period, 0⟩) ∈ read_state ranges contents) ∧
    (∀ (ranges : List (Int × Int)) (p period : Int), (p, period) ∈ ranges →
        (p, ⟨period, 0⟩) ∈ read_state ranges []) ∧
    (∀ now period : Int, period < now → isDue ⟨period, 0⟩ now = true) := by
  refine ⟨rfl, rfl, read_state_missing_key, ?_, ?_⟩
  · intro ranges p period hmem
    exact read_state_missing_key ranges [] p period hmem rfl
  · intro now period h
    simp only [isDue, decide_eq_true_eq]
    omega

/-- Witness for C9 at a one-budget configuration read against an empty
(missing or corrupt) state file, checked at a clock past the period. -/
theorem missing_file_defaults_witness :
    ((20 : Int), (⟨100, 0⟩ : SchedEntry)) ∈ read_state [(20, 100)] [] ∧
    isDue ⟨100, 0⟩ 101 = true :=
  ⟨missing_file_defaults.2.2.2.1 [((20 : Int), 100)] 20 100 (by decide),
    missing_file_defaults.2.2.2.2 101 100 (by decide)⟩

end MalIdCache
